import Mathlib

/-!
Verification of the nhk-ts programme boundary detection engine.

The definitions below are a shallow embedding of the TypeScript source:
`src/analyzer/helpers.ts`, `src/analyzer/silence.ts`,
`src/analyzer/audioLevels.ts` (`detectBlackBoundariesWithMagick`,
`findConsecutive`) and the frame pipeline in `cli.ts`
(`splitPngFrames`, `getFrameMeansFromBuffers`).

JavaScript numbers are modelled by `ℚ` (all arithmetic the engine performs
on the success path is exact decimal arithmetic), millisecond timestamps by
`ℤ`.  Loops are modelled by structural recursion; where the source uses an
unbounded `while` loop the recursion carries an explicit iteration bound
(`fuel`) that provably exceeds the number of iterations the loop performs.
-/
set_option maxRecDepth 4000

/-- JavaScript `Math.round`: round half toward positive infinity. -/
def jsRound (q : ℚ) : ℤ := ⌊q + 1 / 2⌋

/-- A silence interval in milliseconds, as produced by
`detectSilencePeriods` (`silence.ts`).  The source names the second field
`end`, which is a reserved word in Lean; it is called `stop` here. -/
structure SilencePeriod where
  start : ℤ
  stop : ℤ
deriving DecidableEq

/-- `isFrameSilent` from `helpers.ts`: the timestamp lies in some silence
period expanded by the 200 ms tolerance; note the strict `<` on the upper
bound (`tsMs >= period.start - 200 && tsMs < period.end + 200`). -/
def isFrameSilent (tsMs : ℤ) (silencePeriods : List SilencePeriod) : Bool :=
  silencePeriods.any fun period =>
    decide (period.start - 200 ≤ tsMs) && decide (tsMs < period.stop + 200)

/-- Constant `SIMILARITY_THRESHOLD = 0.92` from
`detectBlackBoundariesWithMagick`. -/
def SIMILARITY_THRESHOLD : ℚ := 92 / 100

/-- Constant `N_CONSECUTIVE = 2` from `detectBlackBoundariesWithMagick`. -/
def N_CONSECUTIVE : ℕ := 2

/-- Constant `FRAME_RATE = 5` from `detectBlackBoundariesWithMagick`. -/
def FRAME_RATE : ℚ := 5

/-- The per-frame condition tested inside the scan loops of
`findConsecutive`:
`means[i] !== undefined && (1 - (means[i] ?? 1)) >= threshold && validMask[i]`. -/
def validAt (means : List ℚ) (threshold : ℚ) (validMask : List Bool) (i : ℕ) : Bool :=
  decide (i < means.length) && decide (threshold ≤ 1 - means.getD i 1) &&
    validMask.getD i false

/-- The `mode === 'last'` loop of `findConsecutive`
(`audioLevels.ts`): iterate `i` from `means.length - 1` down to `0`,
counting consecutive indices satisfying `v`; once the count reaches `n`
at index `i`, return `i + n - 1`. -/
def findLastAux (v : ℕ → Bool) (n : ℕ) : ℕ → ℕ → Option ℕ
  | 0, count =>
      if v 0 then (if count + 1 = n then some (0 + n - 1) else none) else none
  | i + 1, count =>
      if v (i + 1) then
        (if count + 1 = n then some (i + 1 + n - 1) else findLastAux v n i (count + 1))
      else findLastAux v n i 0

/-- The `mode === 'first'` loop of `findConsecutive`
(`audioLevels.ts`): iterate `i` upward from `0` while `i < len` (here
`rem = len - i` counts the remaining iterations), counting consecutive
indices satisfying `v`; once the count reaches `n` at index `i`, return
`i - n + 1`. -/
def findFirstAux (v : ℕ → Bool) (n : ℕ) : ℕ → ℕ → ℕ → Option ℕ
  | 0, _, _ => none
  | rem + 1, i, count =>
      if v i then
        (if count + 1 = n then some (i + 1 - n) else findFirstAux v n rem (i + 1) (count + 1))
      else findFirstAux v n rem (i + 1) 0

/-- The scan direction parameter of `findConsecutive`
(the string literals `'last'` and `'first'` in the source). -/
inductive ScanMode
  | last
  | first
deriving DecidableEq

/-- `findConsecutive` from `audioLevels.ts` (the `label`, `logger` and
`debugLines` parameters only produce log output and are omitted). -/
def findConsecutive (means : List ℚ) (threshold : ℚ) (n : ℕ)
    (mode : ScanMode) (validMask : List Bool) : Option ℕ :=
  match mode with
  | ScanMode.last =>
      match means.length with
      | 0 => none
      | m + 1 => findLastAux (validAt means threshold validMask) n m 0
  | ScanMode.first => findFirstAux (validAt means threshold validMask) n means.length 0 0

/-- Frame timestamp in milliseconds:
`Math.round((i / FRAME_RATE) * 1000)`. -/
def frameTsMs (i : ℕ) : ℤ := jsRound (((i : ℚ) / FRAME_RATE) * 1000)

/-- The silence mask built for the start window:
`startMeans.map((_, i) => isFrameSilent(Math.round((i / FRAME_RATE) * 1000), silencePeriods))`. -/
def startValidMask (means : List ℚ) (silencePeriods : List SilencePeriod) : List Bool :=
  (List.range means.length).map fun i => isFrameSilent (frameTsMs i) silencePeriods

/-- `endWindowStartMs = Math.round((duration - endWindow) * 1000)`
(`audioLevels.ts`, not clamped at 0). -/
def endWindowStartMs (duration endWindow : ℚ) : ℤ :=
  jsRound ((duration - endWindow) * 1000)

/-- The silence mask built for the end window:
`endMeans.map((_, i) => isFrameSilent(Math.round((i / FRAME_RATE) * 1000) + endWindowStartMs, silencePeriods))`. -/
def endValidMask (means : List ℚ) (silencePeriods : List SilencePeriod)
    (duration endWindow : ℚ) : List Bool :=
  (List.range means.length).map fun i =>
    isFrameSilent (frameTsMs i + endWindowStartMs duration endWindow) silencePeriods

/-- `frameToSec = (idx) => idx !== null ? idx / FRAME_RATE : 0`, restricted
to the non-null case in which the resolver applies it. -/
def frameToSec (idx : ℚ) : ℚ := idx / FRAME_RATE

/-- The value returned by `detectBlackBoundariesWithMagick`. -/
structure BoundaryResult where
  programStart : Option ℚ
  programEnd : Option ℚ
  notes : List String
deriving DecidableEq

/-- The boundary resolution tail of `detectBlackBoundariesWithMagick`
(`audioLevels.ts` lines 334-362): both windows' means are scanned with
`findConsecutive` against their silence masks, and the resulting indices
are converted to absolute second offsets.  Note `'last'` mode for the
start window and `'first'` mode for the end window, and
`programStart = frameToSec(startIdx - N_CONSECUTIVE + 1)`. -/
def resolveBoundaries (startMeans endMeans : List ℚ)
    (silencePeriods : List SilencePeriod) (duration endWindow : ℚ) : BoundaryResult :=
  let startIdx := findConsecutive startMeans SIMILARITY_THRESHOLD N_CONSECUTIVE
      ScanMode.last (startValidMask startMeans silencePeriods)
  let endIdx := findConsecutive endMeans SIMILARITY_THRESHOLD N_CONSECUTIVE
      ScanMode.first (endValidMask endMeans silencePeriods duration endWindow)
  let programStart : Option ℚ :=
    match startIdx with
    | some s => some (frameToSec ((s : ℚ) - (N_CONSECUTIVE : ℚ) + 1))
    | none => none
  let programEnd : Option ℚ :=
    match endIdx with
    | some e => some (duration - endWindow + frameToSec (e : ℚ))
    | none => none
  { programStart := programStart
    programEnd := programEnd
    notes :=
      (if programStart = none then ["No valid black period found at start"] else []) ++
      (if programEnd = none then ["No valid black period found at end"] else []) }

/-- `Math.max(0, duration - endWindow)`: the `-ss` offset passed to the
end-window frame extraction (`audioLevels.ts` line 277). -/
def extractionStartOffset (duration endWindow : ℚ) : ℚ :=
  max 0 (duration - endWindow)

/-- A run of `n` consecutive valid frames ending at index `r` inside a
window of `len` frames. -/
def winEnd (v : ℕ → Bool) (len n r : ℕ) : Prop :=
  r < len ∧ n ≤ r + 1 ∧ ∀ j, r + 1 - n ≤ j → j ≤ r → v j = true

/-- A run of `n` consecutive valid frames starting at index `a` inside a
window of `len` frames. -/
def winStart (v : ℕ → Bool) (len n a : ℕ) : Prop :=
  a + n ≤ len ∧ ∀ j, a ≤ j → j < a + n → v j = true

/-- Outcome of one `magick` sub-invocation for a frame, as observed by
`getFrameMeansFromBuffers` (`cli.ts`): `Except.error` models a spawn
failure or non-zero exit (the `catch` branch), `Except.ok none` models
output whose `parseFloat` is `NaN`, and `Except.ok (some m)` a numeric
mean `m`. -/
def meanOf : Except Unit (Option ℚ) → ℚ
  | Except.error _ => 1
  | Except.ok none => 1
  | Except.ok (some m) => m

/-- `getFrameMeansFromBuffers` (`cli.ts` lines 175-227): every task writes
`means[idx] = isNaN(mean) ? 1 : mean` (or `means[idx] = 1` on error)
positionally at its own index; `order` is the order in which the
concurrently scheduled tasks complete their writes. -/
def getFrameMeansFromBuffers (outcomes : List (Except Unit (Option ℚ)))
    (order : List ℕ) : List (Option ℚ) :=
  order.foldl
    (fun acc i => acc.set i (some (meanOf (outcomes.getD i (Except.error ())))))
    (List.replicate outcomes.length none)

/-- Character class `[\d.]` of the silence-line pattern in `silence.ts`. -/
def isDigitDot (c : Char) : Bool := c.isDigit || c = '.'

/-- The literal part `silence_end: ` of the pattern
`/silence_end: ([\d.]+) \| silence_duration: ([\d.]+)/`. -/
def silenceEndLit : List Char := "silence_end: ".toList

/-- The literal part ` | silence_duration: ` of the same pattern. -/
def silenceDurLit : List Char := " | silence_duration: ".toList

/-- Match the silence pattern at the current position.  Greedy maximal
munch is equivalent to the regex here: the character after each `[\d.]+`
group must be a space (or the line may end), which is not in the class, so
the backtracking regex accepts exactly the maximal run. -/
def matchSilenceAt (cs : List Char) : Option (List Char × List Char) :=
  if silenceEndLit.isPrefixOf cs then
    let r1 := cs.drop silenceEndLit.length
    let g1 := r1.takeWhile isDigitDot
    if g1.isEmpty then none
    else
      let r2 := r1.dropWhile isDigitDot
      if silenceDurLit.isPrefixOf r2 then
        let r3 := r2.drop silenceDurLit.length
        let g2 := r3.takeWhile isDigitDot
        if g2.isEmpty then none else some (g1, g2)
      else none
  else none

/-- `line.match(silenceEndPattern)`: the leftmost position where the
pattern matches wins; `none` when no position matches. -/
def matchSilenceLine : List Char → Option (List Char × List Char)
  | [] => none
  | c :: rest =>
    match matchSilenceAt (c :: rest) with
    | some g => some g
    | none => matchSilenceLine rest

/-- Numeric value of a digit run (most significant first). -/
def digitsToNat (cs : List Char) : ℕ :=
  cs.foldl (fun a c => 10 * a + (c.toNat - 48)) 0

/-- JavaScript `parseFloat` restricted to strings over `[\d.]` (the only
strings the pattern groups can contain): a leading digit run, then
optionally a dot and a fractional digit run; anything after a second dot
is ignored, and a group with no leading digits at all (`NaN`) is `none`. -/
def parseFloatDD (cs : List Char) : Option ℚ :=
  let intPart := cs.takeWhile Char.isDigit
  let rest := cs.drop intPart.length
  match rest with
  | '.' :: rest2 =>
    let frac := rest2.takeWhile Char.isDigit
    if intPart.isEmpty && frac.isEmpty then none
    else some ((digitsToNat intPart : ℚ) + (digitsToNat frac : ℚ) / 10 ^ frac.length)
  | _ => if intPart.isEmpty then none else some ((digitsToNat intPart : ℚ))

/-- One iteration of the parsing loop in `detectSilencePeriods`
(`silence.ts` lines 35-44): on a matching line, push
`{start: end - duration, end}` with `end = Math.round(t * 1000)` and
`duration = Math.round(d * 1000)`.  A matching line whose group holds no
digit (so `parseFloat` is `NaN` and the pushed period would hold `NaN`)
is not modelled and yields no period here. -/
def parseSilenceLine (line : List Char) : Option SilencePeriod :=
  match matchSilenceLine line with
  | none => none
  | some (g1, g2) =>
    match parseFloatDD g1, parseFloatDD g2 with
    | some t, some d =>
        some ⟨jsRound (t * 1000) - jsRound (d * 1000), jsRound (t * 1000)⟩
    | _, _ => none

/-- The parsing loop of `detectSilencePeriods` over the lines of the
collaborator's diagnostic stream. -/
def detectSilencePeriods (lines : List (List Char)) : List SilencePeriod :=
  lines.filterMap parseSilenceLine

/-- The fixed 8-byte PNG magic signature of `splitPngFrames` (`cli.ts`):
`Buffer.from([0x89, 0x50, 0x4E, 0x47, 0x0D, 0x0A, 0x1A, 0x0A])`. -/
def PNG_SIGNATURE : List ℕ := [0x89, 0x50, 0x4E, 0x47, 0x0D, 0x0A, 0x1A, 0x0A]

/-- The signature bytes occur in `buffer` at offset `p` (what
`buffer.indexOf(PNG_SIGNATURE, ...)` tests position by position). -/
def sigMatchesAt (buffer : List ℕ) (p : ℕ) : Bool :=
  decide ((buffer.drop p).take PNG_SIGNATURE.length = PNG_SIGNATURE)

/-- `buffer.indexOf(PNG_SIGNATURE, idx)`: forward scan for the first
occurrence at or after `idx`; `fuel` bounds the iterations of the scan
(`bufferIndexOf` supplies enough for the scan to run to its natural end). -/
def indexOfAux (buffer : List ℕ) : ℕ → ℕ → Option ℕ
  | 0, _ => none
  | fuel + 1, idx =>
    if buffer.length < idx + PNG_SIGNATURE.length then none
    else if sigMatchesAt buffer idx then some idx
    else indexOfAux buffer fuel (idx + 1)

/-- `buffer.indexOf(PNG_SIGNATURE, idx)` with sufficient fuel. -/
def bufferIndexOf (buffer : List ℕ) (idx : ℕ) : Option ℕ :=
  indexOfAux buffer (buffer.length + 1 - idx) idx

/-- The index-collection loop of `splitPngFrames`:
`while ((idx = buffer.indexOf(PNG_SIGNATURE, idx)) !== -1) { indices.push(idx); idx += PNG_SIGNATURE.length; }`;
`fuel` bounds the iterations (`pngIndices` supplies enough). -/
def pngIndicesAux (buffer : List ℕ) : ℕ → ℕ → List ℕ
  | 0, _ => []
  | fuel + 1, idx =>
    match bufferIndexOf buffer idx with
    | none => []
    | some p => p :: pngIndicesAux buffer fuel (p + PNG_SIGNATURE.length)

/-- The recorded signature offsets of `splitPngFrames`, in scan order. -/
def pngIndices (buffer : List ℕ) : List ℕ :=
  pngIndicesAux buffer (buffer.length + 1) 0

/-- The slicing loop of `splitPngFrames`: one
`buffer.slice(indices[i], indices[i+1])` per recorded offset, the last
slice running to buffer end. -/
def segmentsOf (buffer : List ℕ) : List ℕ → List (List ℕ)
  | [] => []
  | [p] => [buffer.drop p]
  | p :: q :: rest => (buffer.drop p).take (q - p) :: segmentsOf buffer (q :: rest)

/-- `splitPngFrames` from `cli.ts` lines 158-173. -/
def splitPngFrames (buffer : List ℕ) : List (List ℕ) :=
  segmentsOf buffer (pngIndices buffer)

/-- A concrete stream of three concatenated signature-prefixed images. -/
def pngTestBuffer : List ℕ :=
  PNG_SIGNATURE ++ [1] ++ PNG_SIGNATURE ++ [2, 3] ++ PNG_SIGNATURE

/-- A silence period covering every timestamp of the concrete test
windows: all frames are silent. -/
def psAll : List SilencePeriod := [⟨-100000, 100000⟩]

/-- Means for the spec start-window similarity array
`[0.50, 0.95, 0.97, 0.40]` (similarity `= 1 - mean`). -/
def startMeansC1 : List ℚ := [1 / 2, 1 / 20, 3 / 100, 3 / 5]

/-- Means for the spec end-window similarity array `[0.93, 0.94, 0.30]`. -/
def endMeansC3 : List ℚ := [7 / 100, 6 / 100, 7 / 10]

/-- Means with two disjoint valid runs (similarities
`[0.95, 0.95, 0.50, 0.95, 0.95]`): runs at indices 0-1 and 3-4. -/
def meansC2 : List ℚ := [1 / 20, 1 / 20, 1 / 2, 1 / 20, 1 / 20]

/-- The per-frame validity predicate as the SPEC words it: similarity at
or above the threshold AND the frame timestamp inside some silence period
expanded by ±200 ms with an INCLUSIVE upper bound
(`period.start - 200 ≤ ts ≤ period.end + 200`).  Written from the spec for
comparison with the code's `validAt` over `isFrameSilent`. -/
def specClaimedValid (means : List ℚ) (silencePeriods : List SilencePeriod)
    (tsOf : ℕ → ℤ) (i : ℕ) : Prop :=
  SIMILARITY_THRESHOLD ≤ 1 - means.getD i 1 ∧
  ∃ p ∈ silencePeriods, p.start - 200 ≤ tsOf i ∧ tsOf i ≤ p.stop + 200

/-- Means for a start window of 7 frames, all with similarity 0.95. -/
def meansC4 : List ℚ := List.replicate 7 (1 / 20)

/-- A silence period 0 ms - 1000 ms for the C4 counterexample. -/
def psC4 : List SilencePeriod := [⟨0, 1000⟩]

/-- End-window means for the C10 short-file scenario (two frames with
similarity 0.95). -/
def endMeansC10 : List ℚ := [1 / 20, 1 / 20]

/-- Silence period matching the NEGATIVE lookup timestamps of the C10
scenario (duration 10 s, endWindow 210 s). -/
def psC10 : List SilencePeriod := [⟨-300000, -100000⟩]

/-- Loop invariant for the backward (`'last'`) scan: descending through
index `i` with `count` consecutive valid frames already seen at
`i+1 … i+count`, and every qualifying run end bounded by `i + count`, the
scan returns the greatest index at which a run of `n` consecutive valid
frames ends, or `none` when no such run exists. -/
theorem findLastAux_spec (v : ℕ → Bool) (n len : ℕ) (hn : 0 < n) :
    ∀ i count, count + 1 ≤ n →
      (∀ j, i < j → j ≤ i + count → v j = true) →
      (∀ r, winEnd v len n r → r ≤ i + count) →
      i + count < len →
      ((∀ r, findLastAux v n i count = some r →
          winEnd v len n r ∧ ∀ r', winEnd v len n r' → r' ≤ r) ∧
       (findLastAux v n i count = none → ∀ r, ¬ winEnd v len n r)) := by
  intro i
  induction i with
  | zero =>
    intro count hcount hv hmax hlt
    by_cases h0 : v 0 = true
    · by_cases hc : count + 1 = n
      · constructor
        · intro r hr
          simp only [findLastAux, h0, if_true, if_pos hc] at hr
          have hr' : r = 0 + n - 1 := by
            cases hr
            rfl
          subst hr'
          refine ⟨⟨by omega, by omega, ?_⟩, ?_⟩
          · intro j hj1 hj2
            rcases Nat.eq_zero_or_pos j with h | h
            · subst h
              exact h0
            · exact hv j h (by omega)
          · intro r' hr'
            have := hmax r' hr'
            omega
        · intro hnone
          simp only [findLastAux, h0, if_true, if_pos hc] at hnone
          exact Option.noConfusion hnone
      · constructor
        · intro r hr
          simp only [findLastAux, h0, if_true, if_neg hc] at hr
          exact Option.noConfusion hr
        · intro _ r hr
          have h1 := hmax r hr
          have h2 := hr.2.1
          omega
    · constructor
      · intro r hr
        simp only [findLastAux, if_neg h0] at hr
        exact Option.noConfusion hr
      · intro _ r hr
        have h1 := hmax r hr
        have h2 := hr.2.1
        have h3 : v 0 = true := hr.2.2 0 (by omega) (by omega)
        exact h0 h3
  | succ i ih =>
    intro count hcount hv hmax hlt
    by_cases hsucc : v (i + 1) = true
    · by_cases hc : count + 1 = n
      · constructor
        · intro r hr
          simp only [findLastAux, hsucc, if_true, if_pos hc] at hr
          have hr' : r = i + 1 + n - 1 := by
            cases hr
            rfl
          subst hr'
          refine ⟨⟨by omega, by omega, ?_⟩, ?_⟩
          · intro j hj1 hj2
            have hj1' : i + 1 ≤ j := by omega
            rcases Nat.eq_or_lt_of_le hj1' with h' | h'
            · rw [← h']
              exact hsucc
            · exact hv j (by omega) (by omega)
          · intro r' hr'
            have := hmax r' hr'
            omega
        · intro hnone
          simp only [findLastAux, hsucc, if_true, if_pos hc] at hnone
          exact Option.noConfusion hnone
      · have step := ih (count + 1) (by omega)
          (by
            intro j hj1 hj2
            rcases Nat.eq_or_lt_of_le (Nat.succ_le_of_lt hj1) with h' | h'
            · subst h'
              exact hsucc
            · exact hv j (by omega) (by omega))
          (by
            intro r hr
            have := hmax r hr
            omega)
          (by omega)
        constructor
        · intro r hr
          simp only [findLastAux, hsucc, if_true, if_neg hc] at hr
          exact step.1 r hr
        · intro hnone
          simp only [findLastAux, hsucc, if_true, if_neg hc] at hnone
          exact step.2 hnone
    · have hmax' : ∀ r, winEnd v len n r → r ≤ i + 0 := by
        intro r hr
        have h1 := hmax r hr
        by_contra hcon
        have hri : i + 1 ≤ r := by omega
        have hwin : v (i + 1) = true := hr.2.2 (i + 1) (by omega) (by omega)
        exact hsucc hwin
      have step := ih 0 (by omega) (by intro j hj1 hj2; omega) hmax' (by omega)
      constructor
      · intro r hr
        simp only [findLastAux, if_neg hsucc] at hr
        exact step.1 r hr
      · intro hnone
        simp only [findLastAux, if_neg hsucc] at hnone
        exact step.2 hnone

/-- Loop invariant for the forward (`'first'`) scan: ascending through
index `i = len - rem` with `count` consecutive valid frames already seen
at `i-count … i-1` and every qualifying run start at or beyond `i - count`,
the scan returns the least index at which a run of `n` consecutive valid
frames starts, or `none` when no such run exists. -/
theorem findFirstAux_spec (v : ℕ → Bool) (n len : ℕ) (hn : 0 < n) :
    ∀ rem i count, rem + i = len → count + 1 ≤ n → count ≤ i →
      (∀ j, i ≤ j + count → j < i → v j = true) →
      (∀ a, winStart v len n a → i ≤ a + count) →
      ((∀ a, findFirstAux v n rem i count = some a →
          winStart v len n a ∧ ∀ a', winStart v len n a' → a ≤ a') ∧
       (findFirstAux v n rem i count = none → ∀ a, ¬ winStart v len n a)) := by
  intro rem
  induction rem with
  | zero =>
    intro i count hrem hcount hci hv hmin
    constructor
    · intro a ha
      simp only [findFirstAux] at ha
      exact Option.noConfusion ha
    · intro _ a ha
      have h1 := hmin a ha
      have h2 := ha.1
      omega
  | succ rem ih =>
    intro i count hrem hcount hci hv hmin
    by_cases hvi : v i = true
    · by_cases hc : count + 1 = n
      · constructor
        · intro a ha
          simp only [findFirstAux, hvi, if_true, if_pos hc] at ha
          have ha' : a = i + 1 - n := by
            cases ha
            rfl
          subst ha'
          refine ⟨⟨by omega, ?_⟩, ?_⟩
          · intro j hj1 hj2
            rcases Nat.lt_or_ge j i with h' | h'
            · exact hv j (by omega) h'
            · have : j = i := by omega
              rw [this]
              exact hvi
          · intro a' ha'
            have := hmin a' ha'
            omega
        · intro hnone
          simp only [findFirstAux, hvi, if_true, if_pos hc] at hnone
          exact Option.noConfusion hnone
      · have step := ih (i + 1) (count + 1) (by omega) (by omega) (by omega)
          (by
            intro j hj1 hj2
            rcases Nat.lt_or_ge j i with h' | h'
            · exact hv j (by omega) h'
            · have : j = i := by omega
              rw [this]
              exact hvi)
          (by
            intro a ha
            have := hmin a ha
            omega)
        constructor
        · intro a ha
          simp only [findFirstAux, hvi, if_true, if_neg hc] at ha
          exact step.1 a ha
        · intro hnone
          simp only [findFirstAux, hvi, if_true, if_neg hc] at hnone
          exact step.2 hnone
    · have hmin' : ∀ a, winStart v len n a → i + 1 ≤ a + 0 := by
        intro a ha
        have h1 := hmin a ha
        by_contra hcon
        have hai : a ≤ i := by omega
        have hwin : v i = true := ha.2 i hai (by omega)
        exact hvi hwin
      have step := ih (i + 1) 0 (by omega) (by omega) (by omega)
        (by intro j hj1 hj2; omega) hmin'
      constructor
      · intro a ha
        simp only [findFirstAux, if_neg hvi] at ha
        exact step.1 a ha
      · intro hnone
        simp only [findFirstAux, if_neg hvi] at hnone
        exact step.2 hnone

/-- `findConsecutive` in `'last'` mode returns the greatest index at which
a run of `n` consecutive frames satisfying the scan condition ends, and
`none` exactly when no such run exists. -/
theorem findConsecutive_last_spec (means : List ℚ) (threshold : ℚ) (n : ℕ)
    (mask : List Bool) (hn : 0 < n) :
    (∀ r, findConsecutive means threshold n ScanMode.last mask = some r →
        winEnd (validAt means threshold mask) means.length n r ∧
        ∀ r', winEnd (validAt means threshold mask) means.length n r' → r' ≤ r) ∧
    (findConsecutive means threshold n ScanMode.last mask = none →
        ∀ r, ¬ winEnd (validAt means threshold mask) means.length n r) := by
  cases hlen : means.length with
  | zero =>
    constructor
    · intro r hr
      simp only [findConsecutive, hlen] at hr
      exact Option.noConfusion hr
    · intro _ r hr
      have := hr.1
      omega
  | succ m =>
    have step := findLastAux_spec (validAt means threshold mask) n (m + 1) hn m 0
      (by omega) (by intro j hj1 hj2; omega)
      (by intro r hr; have := hr.1; omega) (by omega)
    constructor
    · intro r hr
      simp only [findConsecutive, hlen] at hr
      exact step.1 r hr
    · intro hnone
      simp only [findConsecutive, hlen] at hnone
      exact step.2 hnone

/-- `findConsecutive` in `'first'` mode returns the least index at which
a run of `n` consecutive frames satisfying the scan condition starts, and
`none` exactly when no such run exists. -/
theorem findConsecutive_first_spec (means : List ℚ) (threshold : ℚ) (n : ℕ)
    (mask : List Bool) (hn : 0 < n) :
    (∀ a, findConsecutive means threshold n ScanMode.first mask = some a →
        winStart (validAt means threshold mask) means.length n a ∧
        ∀ a', winStart (validAt means threshold mask) means.length n a' → a ≤ a') ∧
    (findConsecutive means threshold n ScanMode.first mask = none →
        ∀ a, ¬ winStart (validAt means threshold mask) means.length n a) := by
  have step := findFirstAux_spec (validAt means threshold mask) n means.length hn
    means.length 0 0 (by omega) (by omega) (by omega)
    (by intro j hj1 hj2; omega) (by intro a ha; omega)
  constructor
  · intro a ha
    simp only [findConsecutive] at ha
    exact step.1 a ha
  · intro hnone
    simp only [findConsecutive] at hnone
    exact step.2 hnone

/-- Folding positional writes over any completion order: cell `j` holds the
written value exactly when some completed task had index `j`. -/
theorem foldl_set_getElem? {α : Type} (val : ℕ → α) :
    ∀ (order : List ℕ) (acc : List α) (j : ℕ),
      (order.foldl (fun acc i => acc.set i (val i)) acc)[j]? =
        if j ∈ order ∧ j < acc.length then some (val j) else acc[j]? := by
  intro order
  induction order with
  | nil =>
    intro acc j
    rw [List.foldl_nil]
    simp
  | cons i tl ih =>
    intro acc j
    rw [List.foldl_cons, ih, List.length_set]
    have hset : (acc.set i (val i))[j]? =
        if i = j ∧ i < acc.length then some (val i) else acc[j]? := by
      rw [List.getElem?_set]
      by_cases hij : i = j
      · subst hij
        by_cases hlt : i < acc.length
        · simp [hlt]
        · simp [hlt, List.getElem?_eq_none (Nat.le_of_not_lt hlt)]
      · simp [hij]
    by_cases hmem : j ∈ tl
    · by_cases hlt : j < acc.length
      · simp [hmem, hlt]
      · have hcond : ¬ (i = j ∧ i < acc.length) := by
          rintro ⟨rfl, h⟩
          exact hlt h
        simp [hmem, hlt, hset, hcond]
    · by_cases hij : i = j
      · subst hij
        by_cases hlt : i < acc.length
        · simp [hmem, hset, hlt]
        · have hnone : acc[i]? = none := List.getElem?_eq_none (Nat.le_of_not_lt hlt)
          simp [hmem, hset, hlt, hnone]
      · have hji : ¬ j = i := fun h => hij h.symm
        simp [hmem, hij, hji, hset]

/-- C6: `getFrameMeansFromBuffers` returns one mean per input frame, in
input order, independent of the completion order of the concurrent
sub-invocations (writes are positional), and a failed or non-numeric frame
records mean 1, hence similarity `1 - 1 = 0`, while the batch completes. -/
theorem claim_C6 (outcomes : List (Except Unit (Option ℚ))) (order : List ℕ)
    (h : order.Perm (List.range outcomes.length)) :
    getFrameMeansFromBuffers outcomes order =
      outcomes.map (fun o => some (meanOf o)) ∧
    (getFrameMeansFromBuffers outcomes order).length = outcomes.length ∧
    (∀ o : Except Unit (Option ℚ), o = Except.error () ∨ o = Except.ok none →
      meanOf o = 1 ∧ 1 - meanOf o = 0) := by
  have hmain : getFrameMeansFromBuffers outcomes order =
      outcomes.map (fun o => some (meanOf o)) := by
    apply List.ext_getElem?
    intro j
    rw [getFrameMeansFromBuffers, foldl_set_getElem?, List.length_replicate]
    by_cases hj : j < outcomes.length
    · have hmem : j ∈ order := h.mem_iff.mpr (List.mem_range.mpr hj)
      simp [hmem, hj, List.getD_eq_getElem?_getD, List.getElem?_eq_getElem hj]
    · have hmem : j ∉ order := by
        intro hmem
        exact hj (List.mem_range.mp (h.mem_iff.mp hmem))
      have h1 : (List.replicate outcomes.length (none : Option ℚ))[j]? = none :=
        List.getElem?_eq_none (by simpa using Nat.le_of_not_lt hj)
      have h2 : (outcomes.map (fun o => some (meanOf o)))[j]? = none :=
        List.getElem?_eq_none (by simpa using Nat.le_of_not_lt hj)
      simp [hmem, h1, h2]
  refine ⟨hmain, ?_, ?_⟩
  · rw [hmain, List.length_map]
  · intro o ho
    rcases ho with ho | ho <;> subst ho <;> exact ⟨rfl, by norm_num [meanOf]⟩

/-- C7: the line `silence_end: 12.500 | silence_duration: 2.000` parses to
the period 10500 ms - 12500 ms; in general a line matching
`silence_end: <t> | silence_duration: <d>` yields
`end = round(t * 1000)`, `start = end - round(d * 1000)`, and a
non-matching line contributes no period. -/
theorem claim_C7 :
    parseSilenceLine ("silence_end: 12.500 | silence_duration: 2.000".toList) =
      some ⟨10500, 12500⟩ ∧
    (∀ (line g1 g2 : List Char) (t d : ℚ),
      matchSilenceLine line = some (g1, g2) →
      parseFloatDD g1 = some t → parseFloatDD g2 = some d →
      parseSilenceLine line =
        some ⟨jsRound (t * 1000) - jsRound (d * 1000), jsRound (t * 1000)⟩) ∧
    (∀ (line : List Char) (lines : List (List Char)),
      matchSilenceLine line = none →
      detectSilencePeriods (line :: lines) = detectSilencePeriods lines) := by
  have hgen : ∀ (line g1 g2 : List Char) (t d : ℚ),
      matchSilenceLine line = some (g1, g2) →
      parseFloatDD g1 = some t → parseFloatDD g2 = some d →
      parseSilenceLine line =
        some ⟨jsRound (t * 1000) - jsRound (d * 1000), jsRound (t * 1000)⟩ := by
    intro line g1 g2 t d hmatch ht hd
    simp only [parseSilenceLine, hmatch, ht, hd]
  refine ⟨?_, hgen, ?_⟩
  · have h := hgen ("silence_end: 12.500 | silence_duration: 2.000".toList)
      ("12.500".toList) ("2.000".toList) (25 / 2) 2
      (by decide) (by with_unfolding_all decide) (by with_unfolding_all decide)
    rw [h]
    have h1 : jsRound ((25 / 2 : ℚ) * 1000) = 12500 := by with_unfolding_all decide
    have h2 : jsRound ((2 : ℚ) * 1000) = 2000 := by with_unfolding_all decide
    rw [h1, h2]
    norm_num
  · intro line lines hmatch
    rw [detectSilencePeriods, List.filterMap_cons, parseSilenceLine, hmatch]
    rfl

/-- Witness for C7 at the concrete line of the claim. -/
theorem claim_C7_witness :
    matchSilenceLine ("silence_end: 12.500 | silence_duration: 2.000".toList) =
      some ("12.500".toList, "2.000".toList) ∧
    parseSilenceLine ("silence_end: 12.500 | silence_duration: 2.000".toList) =
      some ⟨10500, 12500⟩ := by
  constructor
  · decide
  · have h := claim_C7.2.1 ("silence_end: 12.500 | silence_duration: 2.000".toList)
      ("12.500".toList) ("2.000".toList) (25 / 2) 2
      (by decide) (by with_unfolding_all decide) (by with_unfolding_all decide)
    rw [h]
    have h1 : jsRound ((25 / 2 : ℚ) * 1000) = 12500 := by with_unfolding_all decide
    have h2 : jsRound ((2 : ℚ) * 1000) = 2000 := by with_unfolding_all decide
    rw [h1, h2]
    norm_num

/-- A signature occurrence needs all 8 bytes inside the buffer. -/
theorem sigMatchesAt_add_le (buffer : List ℕ) (p : ℕ)
    (h : sigMatchesAt buffer p = true) :
    p + PNG_SIGNATURE.length ≤ buffer.length := by
  rw [sigMatchesAt, decide_eq_true_eq] at h
  have hlen := congrArg List.length h
  rw [List.length_take, List.length_drop] at hlen
  have : PNG_SIGNATURE.length = 8 := rfl
  omega

/-- The bytes under a signature occurrence are the signature bytes. -/
theorem sigMatchesAt_bytes (buffer : List ℕ) (p : ℕ)
    (h : sigMatchesAt buffer p = true) :
    ∀ j, j < PNG_SIGNATURE.length → buffer[p + j]? = PNG_SIGNATURE[j]? := by
  intro j hj
  rw [sigMatchesAt, decide_eq_true_eq] at h
  have h1 : PNG_SIGNATURE[j]? = ((buffer.drop p).take PNG_SIGNATURE.length)[j]? := by
    rw [h]
  rw [List.getElem?_take_of_lt hj, List.getElem?_drop] at h1
  exact h1.symm

/-- The PNG signature cannot overlap itself: two distinct occurrences are
at least 8 bytes apart (its first byte `0x89` occurs nowhere else in it). -/
theorem sig_no_overlap (buffer : List ℕ) (p q : ℕ)
    (hp : sigMatchesAt buffer p = true) (hq : sigMatchesAt buffer q = true)
    (hpq : p < q) : p + PNG_SIGNATURE.length ≤ q := by
  by_contra hcon
  have hlen : PNG_SIGNATURE.length = 8 := rfl
  have hd : q - p < 8 := by omega
  have hd1 : 1 ≤ q - p := by omega
  have h1 : buffer[q]? = PNG_SIGNATURE[0]? := by
    have := sigMatchesAt_bytes buffer q hq 0 (by omega)
    simpa using this
  have h2 : buffer[p + (q - p)]? = PNG_SIGNATURE[q - p]? :=
    sigMatchesAt_bytes buffer p hp (q - p) (by omega)
  rw [show p + (q - p) = q by omega] at h2
  have h3 : PNG_SIGNATURE[q - p]? = PNG_SIGNATURE[0]? := by rw [← h2, h1]
  interval_cases h : q - p <;> revert h3 <;> decide

/-- Soundness of the forward signature scan: a returned offset is at or
after the scan start, is an occurrence, fits in the buffer, and is the
first occurrence at or after the start. -/
theorem indexOfAux_some (buffer : List ℕ) :
    ∀ fuel idx p, indexOfAux buffer fuel idx = some p →
      idx ≤ p ∧ p + PNG_SIGNATURE.length ≤ buffer.length ∧
      sigMatchesAt buffer p = true ∧
      ∀ q, idx ≤ q → q < p → sigMatchesAt buffer q = false := by
  intro fuel
  induction fuel with
  | zero =>
    intro idx p h
    simp only [indexOfAux] at h
    exact Option.noConfusion h
  | succ fuel ih =>
    intro idx p h
    simp only [indexOfAux] at h
    by_cases hg : buffer.length < idx + PNG_SIGNATURE.length
    · rw [if_pos hg] at h
      exact Option.noConfusion h
    · rw [if_neg hg] at h
      by_cases hs : sigMatchesAt buffer idx = true
      · rw [if_pos hs] at h
        have hp : p = idx := by
          cases h
          rfl
        subst hp
        exact ⟨Nat.le_refl p, by omega, hs, fun q h1 h2 => absurd h1 (by omega)⟩
      · rw [if_neg hs] at h
        obtain ⟨h1, h2, h3, h4⟩ := ih (idx + 1) p h
        refine ⟨by omega, h2, h3, ?_⟩
        intro q hq1 hq2
        rcases Nat.eq_or_lt_of_le hq1 with hq | hq
        · rw [← hq]
          exact Bool.eq_false_iff.mpr (fun hc => hs (hq ▸ hc))
        · exact h4 q hq hq2

/-- Completeness of the forward signature scan: with enough fuel, `none`
means no occurrence exists at or after the scan start. -/
theorem indexOfAux_none (buffer : List ℕ) :
    ∀ fuel idx, buffer.length + 1 ≤ fuel + idx →
      indexOfAux buffer fuel idx = none →
      ∀ q, idx ≤ q → sigMatchesAt buffer q = false := by
  intro fuel
  induction fuel with
  | zero =>
    intro idx hfuel _ q hq
    cases hsq : sigMatchesAt buffer q with
    | false => rfl
    | true =>
      have := sigMatchesAt_add_le buffer q hsq
      have : PNG_SIGNATURE.length = 8 := rfl
      omega
  | succ fuel ih =>
    intro idx hfuel h q hq
    simp only [indexOfAux] at h
    by_cases hg : buffer.length < idx + PNG_SIGNATURE.length
    · cases hsq : sigMatchesAt buffer q with
      | false => rfl
      | true =>
        have h8 := sigMatchesAt_add_le buffer q hsq
        omega
    · rw [if_neg hg] at h
      by_cases hs : sigMatchesAt buffer idx = true
      · rw [if_pos hs] at h
        exact Option.noConfusion h
      · rw [if_neg hs] at h
        rcases Nat.eq_or_lt_of_le hq with hq' | hq'
        · rw [← hq']
          exact Bool.eq_false_iff.mpr (fun hc => hs (hq' ▸ hc))
        · exact ih (idx + 1) (by omega) h q hq'

/-- `bufferIndexOf` always carries enough fuel: soundness. -/
theorem bufferIndexOf_some (buffer : List ℕ) (idx p : ℕ)
    (h : bufferIndexOf buffer idx = some p) :
    idx ≤ p ∧ p + PNG_SIGNATURE.length ≤ buffer.length ∧
    sigMatchesAt buffer p = true ∧
    ∀ q, idx ≤ q → q < p → sigMatchesAt buffer q = false :=
  indexOfAux_some buffer _ idx p h

/-- `bufferIndexOf` always carries enough fuel: completeness. -/
theorem bufferIndexOf_none (buffer : List ℕ) (idx : ℕ)
    (h : bufferIndexOf buffer idx = none) :
    ∀ q, idx ≤ q → sigMatchesAt buffer q = false :=
  indexOfAux_none buffer (buffer.length + 1 - idx) idx (by omega) h

/-- With enough fuel, the greedy index-collection loop records exactly the
occurrences of the signature at or after the scan start (greedily skipping
8 bytes loses nothing because occurrences cannot overlap). -/
theorem mem_pngIndicesAux (buffer : List ℕ) :
    ∀ fuel idx, buffer.length + 1 ≤ fuel + idx →
      ∀ p, p ∈ pngIndicesAux buffer fuel idx ↔
        (idx ≤ p ∧ sigMatchesAt buffer p = true) := by
  intro fuel
  induction fuel with
  | zero =>
    intro idx hfuel p
    simp only [pngIndicesAux, List.not_mem_nil, false_iff]
    rintro ⟨hp1, hp2⟩
    have h8 := sigMatchesAt_add_le buffer p hp2
    have : PNG_SIGNATURE.length = 8 := rfl
    omega
  | succ fuel ih =>
    intro idx hfuel p
    simp only [pngIndicesAux]
    cases hfind : bufferIndexOf buffer idx with
    | none =>
      simp only [List.not_mem_nil, false_iff]
      rintro ⟨hp1, hp2⟩
      rw [bufferIndexOf_none buffer idx hfind p hp1] at hp2
      exact Bool.noConfusion hp2
    | some q =>
      obtain ⟨hq1, hq2, hq3, hq4⟩ := bufferIndexOf_some buffer idx q hfind
      have hfuel' : buffer.length + 1 ≤ fuel + (q + PNG_SIGNATURE.length) := by
        have : PNG_SIGNATURE.length = 8 := rfl
        omega
      rw [List.mem_cons, ih (q + PNG_SIGNATURE.length) hfuel' p]
      constructor
      · rintro (rfl | ⟨hp1, hp2⟩)
        · exact ⟨hq1, hq3⟩
        · exact ⟨by omega, hp2⟩
      · rintro ⟨hp1, hp2⟩
        rcases Nat.lt_trichotomy p q with hlt | heq | hgt
        · rw [hq4 p hp1 hlt] at hp2
          exact Bool.noConfusion hp2
        · exact Or.inl heq
        · exact Or.inr ⟨sig_no_overlap buffer q p hq3 hp2 hgt, hp2⟩

/-- The recorded offsets are strictly increasing (stream order). -/
theorem pngIndicesAux_sorted (buffer : List ℕ) :
    ∀ fuel idx, buffer.length + 1 ≤ fuel + idx →
      List.Sorted (fun a b => a < b) (pngIndicesAux buffer fuel idx) := by
  intro fuel
  induction fuel with
  | zero =>
    intro idx _
    simp [pngIndicesAux]
  | succ fuel ih =>
    intro idx hfuel
    simp only [pngIndicesAux]
    cases hfind : bufferIndexOf buffer idx with
    | none => simp
    | some q =>
      obtain ⟨hq1, hq2, _, _⟩ := bufferIndexOf_some buffer idx q hfind
      have hfuel' : buffer.length + 1 ≤ fuel + (q + PNG_SIGNATURE.length) := by
        have : PNG_SIGNATURE.length = 8 := rfl
        omega
      rw [List.sorted_cons]
      refine ⟨?_, ih (q + PNG_SIGNATURE.length) hfuel'⟩
      intro b hb
      have := (mem_pngIndicesAux buffer fuel (q + PNG_SIGNATURE.length) hfuel' b).mp hb
      have : PNG_SIGNATURE.length = 8 := rfl
      omega

/-- One frame buffer per recorded offset. -/
theorem segmentsOf_length (buffer : List ℕ) :
    ∀ idxs : List ℕ, (segmentsOf buffer idxs).length = idxs.length := by
  intro idxs
  induction idxs with
  | nil => rfl
  | cons p tl ih =>
    cases tl with
    | nil => rfl
    | cons q rest =>
      simp only [segmentsOf, List.length_cons]
      rw [ih]
      simp

/-- The `k`-th frame buffer is the slice from its own offset up to the
next offset (buffer end for the last). -/
theorem segmentsOf_getD (buffer : List ℕ) :
    ∀ (idxs : List ℕ) (k : ℕ), k < idxs.length →
      (segmentsOf buffer idxs).getD k [] =
        (buffer.drop (idxs.getD k 0)).take
          (idxs.getD (k + 1) buffer.length - idxs.getD k 0) := by
  intro idxs
  induction idxs with
  | nil =>
    intro k hk
    simp at hk
  | cons p tl ih =>
    cases tl with
    | nil =>
      intro k hk
      have hk0 : k = 0 := by
        simp at hk
        omega
      subst hk0
      simp only [segmentsOf, List.getD_cons_zero, List.getD_cons_succ, List.getD_nil]
      have hlen : (buffer.drop p).length = buffer.length - p := List.length_drop p buffer
      rw [← hlen, List.take_length]
    | cons q rest =>
      intro k hk
      cases k with
      | zero => rfl
      | succ k =>
        simp only [segmentsOf, List.getD_cons_succ]
        exact ih k (by simpa using Nat.lt_of_succ_lt_succ hk)

/-- C8: `splitPngFrames` produces one sub-buffer per signature occurrence,
in stream order, each starting at its own occurrence offset and running to
the next occurrence (buffer end for the last); three concatenated
signature-prefixed images yield exactly their three buffers, and a buffer
with no occurrence yields the empty list. -/
theorem claim_C8 (buffer : List ℕ) :
    (∀ p, p ∈ pngIndices buffer ↔ sigMatchesAt buffer p = true) ∧
    List.Sorted (fun a b => a < b) (pngIndices buffer) ∧
    (splitPngFrames buffer).length = (pngIndices buffer).length ∧
    (∀ k, k < (pngIndices buffer).length →
      (splitPngFrames buffer).getD k [] =
        (buffer.drop ((pngIndices buffer).getD k 0)).take
          ((pngIndices buffer).getD (k + 1) buffer.length -
            (pngIndices buffer).getD k 0)) ∧
    splitPngFrames pngTestBuffer =
      [PNG_SIGNATURE ++ [1], PNG_SIGNATURE ++ [2, 3], PNG_SIGNATURE] ∧
    splitPngFrames [0, 1, 2] = [] := by
  refine ⟨?_, ?_, segmentsOf_length buffer (pngIndices buffer), ?_, by decide, by decide⟩
  · intro p
    have := mem_pngIndicesAux buffer (buffer.length + 1) 0 (by omega) p
    simpa [pngIndices] using this
  · exact pngIndicesAux_sorted buffer (buffer.length + 1) 0 (by omega)
  · intro k hk
    exact segmentsOf_getD buffer (pngIndices buffer) k hk

/-- Witness for C8 on the three-image test buffer. -/
theorem claim_C8_witness :
    (0 ∈ pngIndices pngTestBuffer ↔ sigMatchesAt pngTestBuffer 0 = true) ∧
    (splitPngFrames pngTestBuffer).getD 0 [] =
      (pngTestBuffer.drop ((pngIndices pngTestBuffer).getD 0 0)).take
        ((pngIndices pngTestBuffer).getD 1 pngTestBuffer.length -
          (pngIndices pngTestBuffer).getD 0 0) :=
  ⟨(claim_C8 pngTestBuffer).1 0,
   (claim_C8 pngTestBuffer).2.2.2.1 0 (by decide)⟩

/-- C1 counterexample: on the claim's own input (start-window similarity
array `[0.50, 0.95, 0.97, 0.40]`, threshold 0.92, N = 2, all frames
silent) the code resolves `programStart = 1/frameRate`, not the claimed
`2/frameRate`: `programStart = frameToSec(startIdx - N_CONSECUTIVE + 1)`
uses the first index of the confirming run, not its last index. -/
theorem claim_C1_counterexample :
    (resolveBoundaries startMeansC1 [] psAll 300 210).programStart =
      some (1 / FRAME_RATE) ∧
    ¬ (resolveBoundaries startMeansC1 [] psAll 300 210).programStart =
      some (2 / FRAME_RATE) := by
  with_unfolding_all decide

/-- C1 amended: on the claim's input the scan indeed resolves the run
[1, 2] and returns its last index 2, but
`programStart = (2 - N + 1)/frameRate = 1/frameRate` (the first index of
the run), not `2/frameRate`. -/
theorem claim_C1_amended :
    findConsecutive startMeansC1 SIMILARITY_THRESHOLD N_CONSECUTIVE
      ScanMode.last (startValidMask startMeansC1 psAll) = some 2 ∧
    (resolveBoundaries startMeansC1 [] psAll 300 210).programStart =
      some ((2 - (N_CONSECUTIVE : ℚ) + 1) / FRAME_RATE) := by
  with_unfolding_all decide

/-- C2 counterexample: with two disjoint runs (indices 0-1 and 3-4, all
silent), the start-window scan picks the run 3-4 (returning 4, not 1):
the backward scan prefers the run closest to the window's own end.  The
end-window scan picks the run 0-1 (returning 0, not 3): the forward scan
prefers the run closest to the window's own start.  Both choices are the
opposite of the claim. -/
theorem claim_C2_counterexample :
    (findConsecutive meansC2 SIMILARITY_THRESHOLD N_CONSECUTIVE
        ScanMode.last (startValidMask meansC2 psAll) = some 4 ∧
      ¬ findConsecutive meansC2 SIMILARITY_THRESHOLD N_CONSECUTIVE
        ScanMode.last (startValidMask meansC2 psAll) = some 1) ∧
    (findConsecutive meansC2 SIMILARITY_THRESHOLD N_CONSECUTIVE
        ScanMode.first (endValidMask meansC2 psAll 300 210) = some 0 ∧
      ¬ findConsecutive meansC2 SIMILARITY_THRESHOLD N_CONSECUTIVE
        ScanMode.first (endValidMask meansC2 psAll 300 210) = some 3) := by
  with_unfolding_all decide

/-- C2 amended: when multiple disjoint runs of N consecutive valid frames
exist, the start window resolves the run closest to the start window's own
END (the scan returns the greatest qualifying run end), and the end window
resolves the run closest to the end window's own START (the scan returns
the least qualifying run start). -/
theorem claim_C2_amended (means : List ℚ) (threshold : ℚ) (n : ℕ)
    (mask : List Bool) (hn : 0 < n) :
    (∀ r, findConsecutive means threshold n ScanMode.last mask = some r →
        winEnd (validAt means threshold mask) means.length n r ∧
        ∀ r', winEnd (validAt means threshold mask) means.length n r' → r' ≤ r) ∧
    (∀ a, findConsecutive means threshold n ScanMode.first mask = some a →
        winStart (validAt means threshold mask) means.length n a ∧
        ∀ a', winStart (validAt means threshold mask) means.length n a' → a ≤ a') :=
  ⟨(findConsecutive_last_spec means threshold n mask hn).1,
   (findConsecutive_first_spec means threshold n mask hn).1⟩

/-- Witness for the amended C2 at the two-run input. -/
theorem claim_C2_witness :
    (winEnd (validAt meansC2 SIMILARITY_THRESHOLD (startValidMask meansC2 psAll))
        meansC2.length N_CONSECUTIVE 4 ∧
      ∀ r', winEnd (validAt meansC2 SIMILARITY_THRESHOLD (startValidMask meansC2 psAll))
        meansC2.length N_CONSECUTIVE r' → r' ≤ 4) ∧
    winStart (validAt meansC2 SIMILARITY_THRESHOLD (endValidMask meansC2 psAll 300 210))
      meansC2.length N_CONSECUTIVE 0 :=
  ⟨(claim_C2_amended meansC2 SIMILARITY_THRESHOLD N_CONSECUTIVE
      (startValidMask meansC2 psAll) (by decide)).1 4
      (by with_unfolding_all decide),
   ((claim_C2_amended meansC2 SIMILARITY_THRESHOLD N_CONSECUTIVE
      (endValidMask meansC2 psAll 300 210) (by decide)).2 0
      (by with_unfolding_all decide)).1⟩

/-- C3: on the claim's end-window input (similarity array
`[0.93, 0.94, 0.30]`, threshold 0.92, N = 2, all frames silent) the
resolver returns the first index 0 of the qualifying run 0-1, and
`programEnd = duration - endWindow + 0/frameRate` (here with
duration 300 s and endWindow 210 s). -/
theorem claim_C3 :
    findConsecutive endMeansC3 SIMILARITY_THRESHOLD N_CONSECUTIVE
      ScanMode.first (endValidMask endMeansC3 psAll 300 210) = some 0 ∧
    (resolveBoundaries [] endMeansC3 psAll 300 210).programEnd =
      some (300 - 210 + 0 / FRAME_RATE) := by
  with_unfolding_all decide

/-- Index a mask built by mapping over `List.range`. -/
theorem getD_map_range (f : ℕ → Bool) (len i : ℕ) (h : i < len) :
    ((List.range len).map f).getD i false = f i := by
  rw [List.getD_eq_getElem?_getD, List.getElem?_map, List.getElem?_range h]
  rfl

/-- C4 counterexample: frame 6 of the start window sits at 1200 ms, which
is exactly `period.end + 200`.  The claim's inclusive bound makes the
frame valid, but the code's `isFrameSilent` uses the strict comparison
`tsMs < period.end + 200`, so the frame is NOT valid. -/
theorem claim_C4_counterexample :
    validAt meansC4 SIMILARITY_THRESHOLD (startValidMask meansC4 psC4) 6 = false ∧
    specClaimedValid meansC4 psC4 frameTsMs 6 := by
  constructor
  · with_unfolding_all decide
  · refine ⟨by with_unfolding_all decide, ⟨0, 1000⟩, by simp [psC4], ?_, ?_⟩
    · with_unfolding_all decide
    · with_unfolding_all decide

/-- C4 amended: a frame's effective validity (the condition the scan loops
test) holds iff its similarity is at or above the threshold AND its
timestamp (with the end window's absolute offset added for end-window
frames) lies in some silence period expanded by the tolerance with a
STRICT upper bound: `period.start - 200 ≤ ts < period.end + 200`. -/
theorem claim_C4_amended (means : List ℚ) (silencePeriods : List SilencePeriod)
    (duration endWindow : ℚ) (i : ℕ) (h : i < means.length) :
    (validAt means SIMILARITY_THRESHOLD (startValidMask means silencePeriods) i = true ↔
      (SIMILARITY_THRESHOLD ≤ 1 - means.getD i 1 ∧
       ∃ p ∈ silencePeriods,
         p.start - 200 ≤ frameTsMs i ∧ frameTsMs i < p.stop + 200)) ∧
    (validAt means SIMILARITY_THRESHOLD
        (endValidMask means silencePeriods duration endWindow) i = true ↔
      (SIMILARITY_THRESHOLD ≤ 1 - means.getD i 1 ∧
       ∃ p ∈ silencePeriods,
         p.start - 200 ≤ frameTsMs i + endWindowStartMs duration endWindow ∧
         frameTsMs i + endWindowStartMs duration endWindow < p.stop + 200)) := by
  constructor
  · rw [validAt, startValidMask, getD_map_range _ _ _ h]
    simp only [isFrameSilent, Bool.and_eq_true, decide_eq_true_eq, List.any_eq_true]
    constructor
    · rintro ⟨⟨-, h2⟩, p, hp, h3, h4⟩
      exact ⟨h2, p, hp, h3, h4⟩
    · rintro ⟨h2, p, hp, h3, h4⟩
      exact ⟨⟨h, h2⟩, p, hp, h3, h4⟩
  · rw [validAt, endValidMask, getD_map_range _ _ _ h]
    simp only [isFrameSilent, Bool.and_eq_true, decide_eq_true_eq, List.any_eq_true]
    constructor
    · rintro ⟨⟨-, h2⟩, p, hp, h3, h4⟩
      exact ⟨h2, p, hp, h3, h4⟩
    · rintro ⟨h2, p, hp, h3, h4⟩
      exact ⟨⟨h, h2⟩, p, hp, h3, h4⟩

/-- Witness for the amended C4 at frame 5 (1000 ms, inside the expanded
period, similarity 0.95 at or above threshold: valid on both readings). -/
theorem claim_C4_witness :
    (validAt meansC4 SIMILARITY_THRESHOLD (startValidMask meansC4 psC4) 5 = true ↔
      (SIMILARITY_THRESHOLD ≤ 1 - meansC4.getD 5 1 ∧
       ∃ p ∈ psC4,
         p.start - 200 ≤ frameTsMs 5 ∧ frameTsMs 5 < p.stop + 200)) ∧
    validAt meansC4 SIMILARITY_THRESHOLD (startValidMask meansC4 psC4) 5 = true :=
  ⟨(claim_C4_amended meansC4 psC4 0 0 5 (by with_unfolding_all decide)).1,
   by with_unfolding_all decide⟩

/-- C5: when no run of N consecutive valid frames exists in a window, the
corresponding boundary is null and the notes contain exactly one
explanatory entry for that side; the two sides are resolved independently
(each boundary depends only on its own window's means). -/
theorem claim_C5 (startMeans endMeans : List ℚ)
    (silencePeriods : List SilencePeriod) (duration endWindow : ℚ) :
    ((¬ ∃ r, winEnd (validAt startMeans SIMILARITY_THRESHOLD
          (startValidMask startMeans silencePeriods))
        startMeans.length N_CONSECUTIVE r) →
      (resolveBoundaries startMeans endMeans silencePeriods duration endWindow).programStart =
        none ∧
      ((resolveBoundaries startMeans endMeans silencePeriods duration endWindow).notes.count
        "No valid black period found at start") = 1) ∧
    ((¬ ∃ a, winStart (validAt endMeans SIMILARITY_THRESHOLD
          (endValidMask endMeans silencePeriods duration endWindow))
        endMeans.length N_CONSECUTIVE a) →
      (resolveBoundaries startMeans endMeans silencePeriods duration endWindow).programEnd =
        none ∧
      ((resolveBoundaries startMeans endMeans silencePeriods duration endWindow).notes.count
        "No valid black period found at end") = 1) ∧
    (∀ startMeans' : List ℚ,
      (resolveBoundaries startMeans' endMeans silencePeriods duration endWindow).programEnd =
        (resolveBoundaries startMeans endMeans silencePeriods duration endWindow).programEnd) ∧
    (∀ endMeans' : List ℚ,
      (resolveBoundaries startMeans endMeans' silencePeriods duration endWindow).programStart =
        (resolveBoundaries startMeans endMeans silencePeriods duration endWindow).programStart) := by
  have hn : 0 < N_CONSECUTIVE := by decide
  refine ⟨?_, ?_, ?_, ?_⟩
  · intro hno
    have h1 : findConsecutive startMeans SIMILARITY_THRESHOLD N_CONSECUTIVE
        ScanMode.last (startValidMask startMeans silencePeriods) = none := by
      cases hfind : findConsecutive startMeans SIMILARITY_THRESHOLD N_CONSECUTIVE
          ScanMode.last (startValidMask startMeans silencePeriods) with
      | none => rfl
      | some r =>
        exact absurd ⟨r, ((findConsecutive_last_spec startMeans SIMILARITY_THRESHOLD
          N_CONSECUTIVE (startValidMask startMeans silencePeriods) hn).1 r hfind).1⟩ hno
    cases hfind : findConsecutive endMeans SIMILARITY_THRESHOLD N_CONSECUTIVE
        ScanMode.first (endValidMask endMeans silencePeriods duration endWindow) with
    | none =>
      constructor
      · simp [resolveBoundaries, h1]
      · simp only [resolveBoundaries, h1, hfind]
        decide
    | some e =>
      constructor
      · simp [resolveBoundaries, h1]
      · simp only [resolveBoundaries, h1, hfind]
        rw [if_pos trivial, if_neg (by simp)]
        decide
  · intro hno
    have h1 : findConsecutive endMeans SIMILARITY_THRESHOLD N_CONSECUTIVE
        ScanMode.first (endValidMask endMeans silencePeriods duration endWindow) = none := by
      cases hfind : findConsecutive endMeans SIMILARITY_THRESHOLD N_CONSECUTIVE
          ScanMode.first (endValidMask endMeans silencePeriods duration endWindow) with
      | none => rfl
      | some a =>
        exact absurd ⟨a, ((findConsecutive_first_spec endMeans SIMILARITY_THRESHOLD
          N_CONSECUTIVE (endValidMask endMeans silencePeriods duration endWindow) hn).1
          a hfind).1⟩ hno
    cases hfind : findConsecutive startMeans SIMILARITY_THRESHOLD N_CONSECUTIVE
        ScanMode.last (startValidMask startMeans silencePeriods) with
    | none =>
      constructor
      · simp [resolveBoundaries, h1]
      · simp only [resolveBoundaries, h1, hfind]
        decide
    | some s =>
      constructor
      · simp [resolveBoundaries, h1]
      · simp only [resolveBoundaries, h1, hfind]
        rw [if_neg (by simp), if_pos trivial]
        decide
  · intro startMeans'
    simp only [resolveBoundaries]
  · intro endMeans'
    simp only [resolveBoundaries]

/-- Witness for C5: an empty start window has no qualifying run, so
`programStart` is null with exactly one start-side note. -/
theorem claim_C5_witness :
    (resolveBoundaries [] endMeansC3 psAll 300 210).programStart = none ∧
    ((resolveBoundaries [] endMeansC3 psAll 300 210).notes.count
      "No valid black period found at start") = 1 :=
  (claim_C5 [] endMeansC3 psAll 300 210).1
    (by
      rintro ⟨r, hr⟩
      exact absurd hr.1 (by simp))

/-- C9: whenever the file is long enough for the two windows
(`startWindow + endWindow ≤ duration`), each window holds at most
`windowLength * frameRate` frames, and both boundaries resolve, the
resolved `programStart` is at most the resolved `programEnd`. -/
theorem claim_C9 (startMeans endMeans : List ℚ)
    (silencePeriods : List SilencePeriod)
    (duration startWindow endWindow : ℚ)
    (hdur : startWindow + endWindow ≤ duration)
    (hsLen : (startMeans.length : ℚ) ≤ startWindow * FRAME_RATE)
    (heLen : (endMeans.length : ℚ) ≤ endWindow * FRAME_RATE)
    (ps pe : ℚ)
    (hps : (resolveBoundaries startMeans endMeans silencePeriods duration endWindow).programStart =
      some ps)
    (hpe : (resolveBoundaries startMeans endMeans silencePeriods duration endWindow).programEnd =
      some pe) :
    ps ≤ pe := by
  have hn : 0 < N_CONSECUTIVE := by decide
  cases hsi : findConsecutive startMeans SIMILARITY_THRESHOLD N_CONSECUTIVE
      ScanMode.last (startValidMask startMeans silencePeriods) with
  | none =>
    rw [show (resolveBoundaries startMeans endMeans silencePeriods duration endWindow).programStart =
      none by simp [resolveBoundaries, hsi]] at hps
    exact Option.noConfusion hps
  | some s =>
    cases hei : findConsecutive endMeans SIMILARITY_THRESHOLD N_CONSECUTIVE
        ScanMode.first (endValidMask endMeans silencePeriods duration endWindow) with
    | none =>
      rw [show (resolveBoundaries startMeans endMeans silencePeriods duration endWindow).programEnd =
        none by simp [resolveBoundaries, hei]] at hpe
      exact Option.noConfusion hpe
    | some e =>
      have hps' : ps = ((s : ℚ) - (N_CONSECUTIVE : ℚ) + 1) / FRAME_RATE := by
        have : (resolveBoundaries startMeans endMeans silencePeriods duration endWindow).programStart =
            some (((s : ℚ) - (N_CONSECUTIVE : ℚ) + 1) / FRAME_RATE) := by
          simp [resolveBoundaries, hsi, frameToSec]
        rw [this] at hps
        exact (Option.some.inj hps).symm
      have hpe' : pe = duration - endWindow + (e : ℚ) / FRAME_RATE := by
        have : (resolveBoundaries startMeans endMeans silencePeriods duration endWindow).programEnd =
            some (duration - endWindow + (e : ℚ) / FRAME_RATE) := by
          simp [resolveBoundaries, hei, frameToSec]
        rw [this] at hpe
        exact (Option.some.inj hpe).symm
      obtain ⟨hw, -⟩ := (findConsecutive_last_spec startMeans SIMILARITY_THRESHOLD
        N_CONSECUTIVE (startValidMask startMeans silencePeriods) hn).1 s hsi
      have hs1 : s + 1 ≤ startMeans.length := hw.1
      have hsQ : (s : ℚ) + 1 ≤ (startMeans.length : ℚ) := by exact_mod_cast hs1
      have heQ : (0 : ℚ) ≤ (e : ℚ) := Nat.cast_nonneg e
      rw [hps', hpe']
      rw [show ((N_CONSECUTIVE : ℚ)) = 2 from by norm_num [N_CONSECUTIVE],
        show (FRAME_RATE : ℚ) = 5 from rfl]
      rw [show (FRAME_RATE : ℚ) = 5 from rfl] at hsLen
      linarith

/-- Witness for C9 at a concrete resolving scenario (duration 300 s,
windows 90 s and 210 s, both sides resolving). -/
theorem claim_C9_witness : (1 : ℚ) / 5 ≤ 90 :=
  claim_C9 startMeansC1 endMeansC3 psAll 300 90 210
    (by norm_num)
    (by with_unfolding_all decide)
    (by with_unfolding_all decide)
    (1 / 5) 90
    (by with_unfolding_all decide)
    (by with_unfolding_all decide)

/-- C10: for a file shorter than the end window, the clamp to 0 is applied
only to the extraction start offset, while the end-window silence-lookup
offset `endWindowStartMs` and the returned `programEnd` both use the
unclamped negative `duration - endWindow`; concretely (duration 10 s,
endWindow 210 s) frame 0 of the end window is looked up at -200000 ms
although it is actually extracted at offset 0 s (0 ms), and the resolved
`programEnd` is -200 s, which is negative. -/
theorem claim_C10 (duration endWindow : ℚ) (h : duration < endWindow) :
    extractionStartOffset duration endWindow = 0 ∧
    endWindowStartMs duration endWindow = jsRound ((duration - endWindow) * 1000) ∧
    endWindowStartMs duration endWindow ≤ 0 ∧
    (∀ (endMeans : List ℚ) (silencePeriods : List SilencePeriod) (e : ℕ),
      findConsecutive endMeans SIMILARITY_THRESHOLD N_CONSECUTIVE ScanMode.first
        (endValidMask endMeans silencePeriods duration endWindow) = some e →
      (resolveBoundaries [] endMeans silencePeriods duration endWindow).programEnd =
        some (duration - endWindow + (e : ℚ) / FRAME_RATE)) ∧
    (endWindowStartMs 10 210 = -200000 ∧
     frameTsMs 0 + endWindowStartMs 10 210 = -200000 ∧
     jsRound ((extractionStartOffset 10 210 + (0 : ℚ) / FRAME_RATE) * 1000) = 0 ∧
     (resolveBoundaries [] endMeansC10 psC10 10 210).programEnd = some (-200) ∧
     ((-200 : ℚ) < 0)) := by
  refine ⟨?_, rfl, ?_, ?_, ?_⟩
  · rw [extractionStartOffset, max_eq_left (by linarith)]
  · have hlt : (⌊(duration - endWindow) * 1000 + 1 / 2⌋ : ℤ) < 1 := by
      rw [Int.floor_lt]
      push_cast
      nlinarith
    rw [endWindowStartMs, jsRound]
    omega
  · intro endMeans silencePeriods e hfind
    simp [resolveBoundaries, hfind, frameToSec]
  · refine ⟨?_, ?_, ?_, ?_, by norm_num⟩
    · with_unfolding_all decide
    · with_unfolding_all decide
    · with_unfolding_all decide
    · with_unfolding_all decide

/-- Witness for C10 at the concrete short-file input. -/
theorem claim_C10_witness :
    extractionStartOffset 10 210 = 0 ∧ endWindowStartMs 10 210 ≤ 0 :=
  ⟨(claim_C10 10 210 (by norm_num)).1,
   (claim_C10 10 210 (by norm_num)).2.2.1⟩

/-- Witness for C6: three frames completing out of order (2, 0, 1) still
fill the means array positionally; the failed frame (index 1) and the
non-numeric frame (index 2) both record mean 1. -/
theorem claim_C6_witness :
    getFrameMeansFromBuffers
      [Except.ok (some (1 / 2)), Except.error (), Except.ok none] [2, 0, 1] =
      [some (1 / 2), some 1, some 1] := by
  have h := (claim_C6 [Except.ok (some (1 / 2)), Except.error (), Except.ok none]
    [2, 0, 1] (by decide)).1
  rw [h]
  rfl
